import Mathlib

/-!
Shallow embedding of the fixed-capacity circular buffer from
`src/circular_buffer.h` / `circular_buffer.tpp` (class `circular_buffer<T, SIZE>`).

State is the triple of the backing array (a list of `SIZE` slots), the `head`
cursor (next slot to be written) and the `tail` cursor (oldest element).
C++ `std::array` indexing is modelled with `List.getD`; element types carry an
`Inhabited` instance mirroring the default-constructibility requirement on `T`.
`at` (which throws `std::out_of_range`) is modelled as `Except String`.
-/

structure circular_buffer (T : Type) (SIZE : Nat) where
  buffer : List T
  head : Nat
  tail : Nat

namespace circular_buffer

/-- `capped_mod`: computes `x % SIZE` assuming `0 <= x < 2*SIZE`
(source: `x < SIZE ? x : x - SIZE`). -/
def capped_mod (SIZE x : Nat) : Nat :=
  if x < SIZE then x else x - SIZE

/-- `full()`: `capped_mod(head + 1) == tail`. -/
def full {T : Type} {SIZE : Nat} (s : circular_buffer T SIZE) : Bool :=
  capped_mod SIZE (s.head + 1) == s.tail

/-- `empty()`: `head == tail`. -/
def empty {T : Type} {SIZE : Nat} (s : circular_buffer T SIZE) : Bool :=
  s.head == s.tail

/-- `len()`: `(head < tail) ? (head + SIZE) - tail : head - tail`. -/
def len {T : Type} {SIZE : Nat} (s : circular_buffer T SIZE) : Nat :=
  if s.head < s.tail then (s.head + SIZE) - s.tail else s.head - s.tail

/-- `capacity()`: `SIZE - 1`. -/
def capacity (SIZE : Nat) : Nat :=
  SIZE - 1

/-- `operator[](pos)` (unchecked indexed access): `buffer[capped_mod(tail + pos)]`. -/
def opIndex {T : Type} {SIZE : Nat} [Inhabited T] (s : circular_buffer T SIZE)
    (pos : Nat) : T :=
  s.buffer.getD (capped_mod SIZE (s.tail + pos)) default

/-- `at(pos)`: throws `std::out_of_range("Out of range access to circular_buffer")`
when `pos >= len()`, otherwise returns `operator[](pos)`. -/
def at' {T : Type} {SIZE : Nat} [Inhabited T] (s : circular_buffer T SIZE)
    (pos : Nat) : Except String T :=
  if pos ≥ s.len then Except.error "Out of range access to circular_buffer"
  else Except.ok (s.opIndex pos)

/-- `back()`: `buffer[capped_mod(head + SIZE - 1)]`. -/
def back {T : Type} {SIZE : Nat} [Inhabited T] (s : circular_buffer T SIZE) : T :=
  s.buffer.getD (capped_mod SIZE (s.head + SIZE - 1)) default

/-- `front()`: `buffer[tail]`. -/
def front {T : Type} {SIZE : Nat} [Inhabited T] (s : circular_buffer T SIZE) : T :=
  s.buffer.getD s.tail default

/-- `push_back(const T&)`: `buffer[head] = item; head = capped_mod(head + 1);
if (head == tail) tail = capped_mod(tail + 1);`. -/
def push_back {T : Type} {SIZE : Nat} (s : circular_buffer T SIZE)
    (item : T) : circular_buffer T SIZE :=
  let buf := s.buffer.set s.head item
  let h := capped_mod SIZE (s.head + 1)
  if h = s.tail then ⟨buf, h, capped_mod SIZE (s.tail + 1)⟩ else ⟨buf, h, s.tail⟩

/-- `push_back(T&&)`: `std::swap(buffer[head], item)` then the same cursor
updates as the copy overload. The swapped-out previous slot content (which the
caller's expiring value receives) is returned as the second component. -/
def push_back_move {T : Type} {SIZE : Nat} [Inhabited T] (s : circular_buffer T SIZE)
    (item : T) : circular_buffer T SIZE × T :=
  let old := s.buffer.getD s.head default
  let buf := s.buffer.set s.head item
  let h := capped_mod SIZE (s.head + 1)
  if h = s.tail then (⟨buf, h, capped_mod SIZE (s.tail + 1)⟩, old)
  else (⟨buf, h, s.tail⟩, old)

/-- `pop_back()`: `head = capped_mod(head + SIZE - 1)`. -/
def pop_back {T : Type} {SIZE : Nat} (s : circular_buffer T SIZE) :
    circular_buffer T SIZE :=
  { s with head := capped_mod SIZE (s.head + SIZE - 1) }

/-- `pop_front()`: `tail = capped_mod(tail + 1)`. -/
def pop_front {T : Type} {SIZE : Nat} (s : circular_buffer T SIZE) :
    circular_buffer T SIZE :=
  { s with tail := capped_mod SIZE (s.tail + 1) }

/-- `begin()`: an iterator positioned at `tail`. -/
def beginPos {T : Type} {SIZE : Nat} (s : circular_buffer T SIZE) : Nat :=
  s.tail

/-- `end()`: an iterator positioned at `head` (the end sentinel). -/
def endPos {T : Type} {SIZE : Nat} (s : circular_buffer T SIZE) : Nat :=
  s.head

/-- `iterator::operator++`: `pos = capped_mod(pos + 1)`. -/
def iterStep (SIZE pos : Nat) : Nat :=
  capped_mod SIZE (pos + 1)

/-- `iterator::operator*`: `buffer.buffer[pos]`. -/
def iterDeref {T : Type} {SIZE : Nat} [Inhabited T] (s : circular_buffer T SIZE)
    (pos : Nat) : T :=
  s.buffer.getD pos default

/-- The element sequence produced by repeatedly dereferencing and advancing an
iterator at `pos` until it compares equal to the end sentinel (`endPos`, i.e.
`head`). `fuel` bounds the number of steps; `iterList` supplies `SIZE`, which
suffices because the loop visits at most `len` < `SIZE` positions. -/
def iterGo {T : Type} {SIZE : Nat} [Inhabited T] (s : circular_buffer T SIZE)
    (pos fuel : Nat) : List T :=
  match fuel with
  | 0 => []
  | fuel + 1 =>
    if pos = s.endPos then [] else s.iterDeref pos :: s.iterGo (iterStep SIZE pos) fuel

/-- Iterating from `begin()` to `end()`, collecting each dereferenced element. -/
def iterList {T : Type} {SIZE : Nat} [Inhabited T] (s : circular_buffer T SIZE) :
    List T :=
  s.iterGo s.beginPos SIZE

/-- The default constructor: `SIZE` default-initialised slots, `head = tail = 0`. -/
def mk_empty (T : Type) [Inhabited T] (SIZE : Nat) : circular_buffer T SIZE :=
  ⟨List.replicate SIZE default, 0, 0⟩

/-- Pushing the items `v 0, v 1, ..., v (k-1)` in order via `push_back`. -/
def pushSeq {T : Type} {SIZE : Nat} (s : circular_buffer T SIZE) (v : Nat → T) :
    Nat → circular_buffer T SIZE
  | 0 => s
  | k + 1 => (s.pushSeq v k).push_back (v k)

/-- Well-formedness: both cursors in `[0, SIZE)` and the backing array holds
exactly `SIZE` slots (as `std::array<T, SIZE>` does). -/
abbrev WF {T : Type} {SIZE : Nat} (s : circular_buffer T SIZE) : Prop :=
  s.head < SIZE ∧ s.tail < SIZE ∧ s.buffer.length = SIZE

/-- States reachable from a freshly constructed buffer through the public
mutating operations. -/
inductive Reachable (T : Type) [Inhabited T] (SIZE : Nat) :
    circular_buffer T SIZE → Prop
  | base : Reachable T SIZE (mk_empty T SIZE)
  | push (s : circular_buffer T SIZE) (x : T) :
      Reachable T SIZE s → Reachable T SIZE (s.push_back x)
  | pushMove (s : circular_buffer T SIZE) (x : T) :
      Reachable T SIZE s → Reachable T SIZE (s.push_back_move x).1
  | popB (s : circular_buffer T SIZE) :
      Reachable T SIZE s → Reachable T SIZE s.pop_back
  | popF (s : circular_buffer T SIZE) :
      Reachable T SIZE s → Reachable T SIZE s.pop_front

/-! ### Helper lemmas -/

theorem getD_congr {α : Type} (l : List α) {i j : Nat} (d : α) (h : i = j) :
    l.getD i d = l.getD j d := by
  rw [h]

theorem getD_set_ne {α : Type} (l : List α) {i j : Nat} (x d : α) (h : i ≠ j) :
    (l.set i x).getD j d = l.getD j d := by
  simp [List.getElem?_set_ne h]

theorem getD_set_self {α : Type} (l : List α) {i : Nat} (x d : α) (h : i < l.length) :
    (l.set i x).getD i d = x := by
  simp [List.getElem?_set_self h]

theorem getD_replicate_default {α : Type} [Inhabited α] (n i : Nat) :
    (List.replicate n (default : α)).getD i default = default := by
  simp only [List.getD_eq_getElem?_getD, List.getElem?_replicate]
  split <;> rfl

theorem capped_mod_eq_mod (SIZE x : Nat) (h : x < 2 * SIZE) :
    capped_mod SIZE x = x % SIZE := by
  unfold capped_mod
  split_ifs with h1
  · exact (Nat.mod_eq_of_lt h1).symm
  · rw [Nat.mod_eq_sub_mod (by omega), Nat.mod_eq_of_lt (by omega)]

theorem len_lt {T : Type} {SIZE : Nat} (s : circular_buffer T SIZE) (hw : s.WF) :
    s.len < SIZE := by
  obtain ⟨h1, h2, _⟩ := hw
  unfold len
  split_ifs <;> omega

theorem capped_mod_tail_add_len {T : Type} {SIZE : Nat} (s : circular_buffer T SIZE)
    (hw : s.WF) : capped_mod SIZE (s.tail + s.len) = s.head := by
  obtain ⟨h1, h2, _⟩ := hw
  unfold len capped_mod
  split_ifs <;> omega

theorem pos_ne_head {T : Type} {SIZE : Nat} (s : circular_buffer T SIZE)
    (hw : s.WF) {j : Nat} (hj : j < s.len) :
    capped_mod SIZE (s.tail + j) ≠ s.head := by
  obtain ⟨h1, h2, _⟩ := hw
  unfold len at hj
  unfold capped_mod
  split_ifs at hj ⊢ <;> omega

theorem WF_push_back {T : Type} {SIZE : Nat} (s : circular_buffer T SIZE) (x : T)
    (hw : s.WF) : (s.push_back x).WF := by
  obtain ⟨h1, h2, h3⟩ := hw
  simp only [push_back, capped_mod]
  split_ifs <;>
    exact ⟨by dsimp only; omega, by dsimp only; omega, by dsimp only; simpa using h3⟩

theorem WF_pop_back {T : Type} {SIZE : Nat} (s : circular_buffer T SIZE)
    (hw : s.WF) : s.pop_back.WF := by
  obtain ⟨h1, h2, h3⟩ := hw
  simp only [pop_back, capped_mod]
  split_ifs <;> exact ⟨by dsimp only; omega, by dsimp only; omega, h3⟩

theorem WF_pop_front {T : Type} {SIZE : Nat} (s : circular_buffer T SIZE)
    (hw : s.WF) : s.pop_front.WF := by
  obtain ⟨h1, h2, h3⟩ := hw
  simp only [pop_front, capped_mod]
  split_ifs <;> exact ⟨by dsimp only; omega, by dsimp only; omega, h3⟩

theorem front_eq_opIndex {T : Type} {SIZE : Nat} [Inhabited T]
    (s : circular_buffer T SIZE) (hw : s.WF) : s.front = s.opIndex 0 := by
  obtain ⟨h1, h2, _⟩ := hw
  unfold front opIndex
  exact (getD_congr _ _ (by unfold capped_mod; split_ifs <;> omega)).symm

theorem back_eq_opIndex {T : Type} {SIZE : Nat} [Inhabited T]
    (s : circular_buffer T SIZE) (hw : s.WF) (hl : 1 ≤ s.len) :
    s.back = s.opIndex (s.len - 1) := by
  obtain ⟨h1, h2, _⟩ := hw
  unfold back opIndex
  unfold len at hl ⊢
  unfold capped_mod
  split_ifs at hl ⊢ <;> exact getD_congr _ _ (by omega)

theorem len_pop_front {T : Type} {SIZE : Nat} (s : circular_buffer T SIZE)
    (hw : s.WF) (hne : s.head ≠ s.tail) : s.pop_front.len = s.len - 1 := by
  obtain ⟨h1, h2, _⟩ := hw
  simp only [pop_front, len, capped_mod]
  try dsimp only
  split_ifs <;> omega

theorem len_pop_back {T : Type} {SIZE : Nat} (s : circular_buffer T SIZE)
    (hw : s.WF) (hne : s.head ≠ s.tail) : s.pop_back.len = s.len - 1 := by
  obtain ⟨h1, h2, _⟩ := hw
  simp only [pop_back, len, capped_mod]
  try dsimp only
  split_ifs <;> omega

theorem opIndex_pop_front {T : Type} {SIZE : Nat} [Inhabited T]
    (s : circular_buffer T SIZE) (hw : s.WF) {i : Nat} (hi : i + 1 ≤ SIZE) :
    s.pop_front.opIndex i = s.opIndex (i + 1) := by
  obtain ⟨h1, h2, _⟩ := hw
  simp only [pop_front, opIndex, capped_mod]
  try dsimp only
  split_ifs <;> exact getD_congr _ _ (by omega)

theorem opIndex_pop_back {T : Type} {SIZE : Nat} [Inhabited T]
    (s : circular_buffer T SIZE) (i : Nat) :
    s.pop_back.opIndex i = s.opIndex i :=
  rfl

theorem front_pop_front {T : Type} {SIZE : Nat} [Inhabited T]
    (s : circular_buffer T SIZE) : s.pop_front.front = s.opIndex 1 :=
  rfl

theorem back_pop_front {T : Type} {SIZE : Nat} [Inhabited T]
    (s : circular_buffer T SIZE) : s.pop_front.back = s.back :=
  rfl

theorem front_pop_back {T : Type} {SIZE : Nat} [Inhabited T]
    (s : circular_buffer T SIZE) : s.pop_back.front = s.front :=
  rfl

theorem back_pop_back {T : Type} {SIZE : Nat} [Inhabited T]
    (s : circular_buffer T SIZE) (hw : s.WF) (hl : 2 ≤ s.len) :
    s.pop_back.back = s.opIndex (s.len - 2) := by
  obtain ⟨h1, h2, _⟩ := hw
  simp only [pop_back, back, opIndex, len, capped_mod] at hl ⊢
  try dsimp only
  split_ifs at hl ⊢ <;> exact getD_congr _ _ (by omega)

theorem pushSeq_fresh {T : Type} [Inhabited T] {SIZE : Nat} (v : Nat → T) (k : Nat)
    (hk : k ≤ SIZE - 1) :
    ((mk_empty T SIZE).pushSeq v k).head = k ∧
    ((mk_empty T SIZE).pushSeq v k).tail = 0 ∧
    ((mk_empty T SIZE).pushSeq v k).buffer.length = SIZE ∧
    ∀ i : Nat, ((mk_empty T SIZE).pushSeq v k).buffer.getD i default =
      if i < k then v i else default := by
  induction k with
  | zero =>
    refine ⟨rfl, rfl, by simp [mk_empty, pushSeq], fun i => ?_⟩
    simp [mk_empty, pushSeq, getD_replicate_default]
  | succ k ih =>
    obtain ⟨ih1, ih2, ih3, ih4⟩ := ih (by omega)
    have hstep : (mk_empty T SIZE).pushSeq v (k + 1) =
        ⟨((mk_empty T SIZE).pushSeq v k).buffer.set k (v k), k + 1, 0⟩ := by
      show ((mk_empty T SIZE).pushSeq v k).push_back (v k) = _
      simp only [push_back, ih1, ih2]
      have hc : capped_mod SIZE (k + 1) = k + 1 := by
        unfold capped_mod; split_ifs <;> omega
      rw [hc, if_neg (Nat.succ_ne_zero k)]
    rw [hstep]
    refine ⟨rfl, rfl, by simpa using ih3, fun i => ?_⟩
    dsimp only
    rcases eq_or_ne i k with rfl | hne
    · rw [getD_set_self _ _ _ (by omega), if_pos (by omega)]
    · rw [getD_set_ne _ _ _ hne.symm, ih4 i]
      split_ifs <;> first | rfl | omega

theorem iterGo_spec {T : Type} {SIZE : Nat} [Inhabited T] (s : circular_buffer T SIZE)
    (hw : s.WF) :
    ∀ (r j fuel : Nat), j + r = s.len → r ≤ fuel →
      s.iterGo (capped_mod SIZE (s.tail + j)) fuel =
        (List.range' j r).map (fun i => s.opIndex i) := by
  intro r
  induction r with
  | zero =>
    intro j fuel hj _
    have hj' : j = s.len := by omega
    have hpos : capped_mod SIZE (s.tail + j) = s.endPos := by
      rw [hj']; exact capped_mod_tail_add_len s hw
    cases fuel with
    | zero => simp [iterGo]
    | succ f => simp [iterGo, hpos]
  | succ r ih =>
    intro j fuel hj hf
    have hjlt : j < s.len := by omega
    have hne : capped_mod SIZE (s.tail + j) ≠ s.endPos := pos_ne_head s hw hjlt
    cases fuel with
    | zero => omega
    | succ f =>
      have hstep : iterStep SIZE (capped_mod SIZE (s.tail + j)) =
          capped_mod SIZE (s.tail + (j + 1)) := by
        obtain ⟨hh, ht, hb⟩ := hw
        unfold len at hjlt
        unfold iterStep capped_mod
        split_ifs at hjlt ⊢ <;> omega
      simp only [iterGo, if_neg hne]
      rw [hstep, ih (j + 1) f (by omega) (by omega), List.range'_succ]
      simp only [List.map_cons]
      rfl

theorem reachable_size_one {T : Type} [Inhabited T] (s : circular_buffer T 1)
    (h : Reachable T 1 s) : s.head = 0 ∧ s.tail = 0 := by
  induction h with
  | base => exact ⟨rfl, rfl⟩
  | push s x hr ih =>
    obtain ⟨ih1, ih2⟩ := ih
    simp [push_back, capped_mod, ih1, ih2]
  | pushMove s x hr ih =>
    obtain ⟨ih1, ih2⟩ := ih
    simp [push_back_move, capped_mod, ih1, ih2]
  | popB s hr ih =>
    obtain ⟨ih1, ih2⟩ := ih
    simp [pop_back, capped_mod, ih1, ih2]
  | popF s hr ih =>
    obtain ⟨ih1, ih2⟩ := ih
    simp [pop_front, capped_mod, ih1, ih2]

theorem push_back_move_fst {T : Type} {SIZE : Nat} [Inhabited T]
    (s : circular_buffer T SIZE) (x : T) :
    (s.push_back_move x).1 = s.push_back x := by
  simp only [push_back_move, push_back]
  split_ifs <;> rfl

/-! ### Claim theorems -/

/-- C7: for every `SIZE ≥ 1`, a freshly constructed buffer has `head = tail = 0`,
`capacity() == SIZE - 1`, `length() == 0`, `isEmpty() == true`, and
`isFull() == (SIZE == 1)`. -/
theorem fresh_buffer_state (T : Type) [Inhabited T] (SIZE : Nat) (h : 1 ≤ SIZE) :
    (mk_empty T SIZE).head = 0 ∧ (mk_empty T SIZE).tail = 0 ∧
    capacity SIZE = SIZE - 1 ∧ (mk_empty T SIZE).len = 0 ∧
    (mk_empty T SIZE).empty = true ∧ (mk_empty T SIZE).full = decide (SIZE = 1) := by
  refine ⟨rfl, rfl, rfl, rfl, rfl, ?_⟩
  show (capped_mod SIZE (0 + 1) == 0) = decide (SIZE = 1)
  have hc : capped_mod SIZE (0 + 1) = if SIZE = 1 then 0 else 1 := by
    unfold capped_mod; split_ifs <;> omega
  rw [hc]
  split_ifs with h2 <;> simp [h2]

/-- C7 witness: the fresh-buffer state theorem instantiated at `Nat`, `SIZE = 3`. -/
theorem fresh_buffer_state_witness :
    (mk_empty Nat 3).head = 0 ∧ (mk_empty Nat 3).tail = 0 ∧
    capacity 3 = 3 - 1 ∧ (mk_empty Nat 3).len = 0 ∧
    (mk_empty Nat 3).empty = true ∧ (mk_empty Nat 3).full = decide (3 = 1) :=
  fresh_buffer_state Nat 3 (by decide)

/-- C3: after pushing `k ≤ capacity()` items `v 0 .. v (k-1)` in order onto a
freshly constructed buffer, `length() == k`, `front() == v 0`,
`back() == v (k-1)`, and `at(i) == v i` for every `i < k`. -/
theorem push_sequence_postcondition (T : Type) [Inhabited T] (SIZE : Nat)
    (v : Nat → T) (k : Nat) (hk : k ≤ capacity SIZE) (i : Nat) (hi : i < k) :
    ((mk_empty T SIZE).pushSeq v k).len = k ∧
    ((mk_empty T SIZE).pushSeq v k).front = v 0 ∧
    ((mk_empty T SIZE).pushSeq v k).back = v (k - 1) ∧
    ((mk_empty T SIZE).pushSeq v k).at' i = Except.ok (v i) := by
  have hk' : k ≤ SIZE - 1 := hk
  obtain ⟨e1, e2, e3, e4⟩ := pushSeq_fresh v k hk'
  have hS : 2 ≤ SIZE := by omega
  have hlen : ((mk_empty T SIZE).pushSeq v k).len = k := by
    unfold len
    rw [e1, e2, if_neg (Nat.not_lt_zero k), Nat.sub_zero]
  refine ⟨hlen, ?_, ?_, ?_⟩
  · unfold front
    rw [e2, e4 0, if_pos (by omega)]
  · unfold back
    rw [e1]
    have hc : capped_mod SIZE (k + SIZE - 1) = k - 1 := by
      unfold capped_mod; split_ifs <;> omega
    rw [hc, e4 (k - 1), if_pos (by omega)]
  · unfold at'
    rw [hlen, if_neg (by omega)]
    unfold opIndex
    rw [e2]
    have hc2 : capped_mod SIZE (0 + i) = i := by
      unfold capped_mod; split_ifs <;> omega
    rw [hc2, e4 i, if_pos hi]

/-- C3 witness: pushing 3 items onto a fresh `SIZE = 5` buffer, checked at
logical position 1. -/
theorem push_sequence_postcondition_witness :
    ((mk_empty Nat 5).pushSeq (fun n => n * 10) 3).len = 3 ∧
    ((mk_empty Nat 5).pushSeq (fun n => n * 10) 3).front = 0 ∧
    ((mk_empty Nat 5).pushSeq (fun n => n * 10) 3).back = 20 ∧
    ((mk_empty Nat 5).pushSeq (fun n => n * 10) 3).at' 1 = Except.ok 10 :=
  push_sequence_postcondition Nat 5 (fun n => n * 10) 3 (by decide) 1 (by decide)

/-- C1: pushing `capacity() + 1` items `v 0 .. v capacity()` onto a freshly
constructed buffer leaves `length() == capacity()`, `front() == v 1`
(`v 0` evicted) and `back() == v capacity()`; and `push_back` advances `tail`
by one exactly when, after advancing `head`, `head == tail`. -/
theorem overwrite_oldest_law (T : Type) [Inhabited T] (SIZE : Nat) (v : Nat → T)
    (h2 : 2 ≤ SIZE) (s : circular_buffer T SIZE) (x : T) :
    ((mk_empty T SIZE).pushSeq v (capacity SIZE + 1)).len = capacity SIZE ∧
    ((mk_empty T SIZE).pushSeq v (capacity SIZE + 1)).front = v 1 ∧
    ((mk_empty T SIZE).pushSeq v (capacity SIZE + 1)).back = v (capacity SIZE) ∧
    ((s.push_back x).tail =
      if capped_mod SIZE (s.head + 1) = s.tail then capped_mod SIZE (s.tail + 1)
      else s.tail) := by
  obtain ⟨m, hm⟩ : ∃ m, SIZE = m + 1 := ⟨SIZE - 1, by omega⟩
  subst hm
  have hm1 : 1 ≤ m := by omega
  have hcap : capacity (m + 1) = m := rfl
  rw [hcap]
  obtain ⟨e1, e2, e3, e4⟩ := @pushSeq_fresh T _ (m + 1) v m (by omega)
  have hc : capped_mod (m + 1) (m + 1) = 0 := by
    unfold capped_mod; split_ifs <;> omega
  have hc2 : capped_mod (m + 1) (0 + 1) = 1 := by
    unfold capped_mod; split_ifs <;> omega
  have hstep : (mk_empty T (m + 1)).pushSeq v (m + 1) =
      ⟨((mk_empty T (m + 1)).pushSeq v m).buffer.set m (v m), 0, 1⟩ := by
    show ((mk_empty T (m + 1)).pushSeq v m).push_back (v m) = _
    simp only [push_back, e1, e2, hc, hc2]
    rw [if_pos trivial]
  refine ⟨?_, ?_, ?_, ?_⟩
  · rw [hstep]
    unfold len
    dsimp only
    rw [if_pos (by omega)]
    omega
  · rw [hstep]
    unfold front
    dsimp only
    rcases eq_or_ne (1 : Nat) m with h1m | h1m
    · rw [← h1m] at e3 ⊢
      rw [getD_set_self _ _ _ (by omega)]
    · rw [getD_set_ne _ _ _ (Ne.symm h1m), e4 1, if_pos (by omega)]
  · rw [hstep]
    unfold back
    dsimp only
    have hc3 : capped_mod (m + 1) (0 + (m + 1) - 1) = m := by
      unfold capped_mod; split_ifs <;> omega
    rw [hc3, getD_set_self _ _ _ (by omega)]
  · simp only [push_back]
    split_ifs <;> rfl

/-- C1 witness: `SIZE = 4` (capacity 3), pushing 4 items evicts the first. -/
theorem overwrite_oldest_law_witness :
    ((mk_empty Nat 4).pushSeq (fun n => n + 100) (capacity 4 + 1)).len = capacity 4 ∧
    ((mk_empty Nat 4).pushSeq (fun n => n + 100) (capacity 4 + 1)).front = 101 ∧
    ((mk_empty Nat 4).pushSeq (fun n => n + 100) (capacity 4 + 1)).back = 103 ∧
    (((mk_empty Nat 4).push_back 9).tail =
      if capped_mod 4 ((mk_empty Nat 4).head + 1) = (mk_empty Nat 4).tail
      then capped_mod 4 ((mk_empty Nat 4).tail + 1) else (mk_empty Nat 4).tail) :=
  overwrite_oldest_law Nat 4 (fun n => n + 100) (by decide) (mk_empty Nat 4) 9

/-- C2 counterexample: the out-of-range error value produced by `at` is the
same fixed message for two distinct offending logical positions (0 and 1 on an
empty `SIZE = 4` buffer), so the error does not carry the offending position,
contrary to the claim. -/
theorem at_error_independent_of_pos :
    (mk_empty Nat 4).at' 0 = (mk_empty Nat 4).at' 1 ∧
    (mk_empty Nat 4).at' 0 = Except.error "Out of range access to circular_buffer" ∧
    (0 : Nat) ≠ 1 :=
  ⟨rfl, rfl, by decide⟩

/-- C2 (amended): `at(pos)` fails with an out-of-range error if and only if
`pos ≥ length()`, the error being the fixed message
`"Out of range access to circular_buffer"` (which does not carry the offending
position); when `pos < length()` the call returns the element stored at raw
index `(tail + pos) % SIZE`. The call is a pure read: it is modelled as a
function of the state and returns no modified buffer. -/
theorem at_checked_access (T : Type) [Inhabited T] (SIZE : Nat)
    (s : circular_buffer T SIZE) (pos : Nat) (hw : s.WF) :
    (pos ≥ s.len → s.at' pos = Except.error "Out of range access to circular_buffer") ∧
    (pos < s.len → s.at' pos = Except.ok (s.buffer.getD ((s.tail + pos) % SIZE) default)) := by
  obtain ⟨h1, h2, h3⟩ := hw
  constructor
  · intro h
    unfold at'
    rw [if_pos h]
  · intro h
    have hlt := len_lt s ⟨h1, h2, h3⟩
    unfold at'
    rw [if_neg (by omega)]
    unfold opIndex
    rw [capped_mod_eq_mod SIZE _ (by omega)]

/-- C2 witness: the amended checked-access theorem at a one-element buffer. -/
theorem at_checked_access_witness :
    ((0 : Nat) ≥ ((mk_empty Nat 4).push_back 5).len →
      ((mk_empty Nat 4).push_back 5).at' 0 =
        Except.error "Out of range access to circular_buffer") ∧
    ((0 : Nat) < ((mk_empty Nat 4).push_back 5).len →
      ((mk_empty Nat 4).push_back 5).at' 0 =
        Except.ok (((mk_empty Nat 4).push_back 5).buffer.getD
          ((((mk_empty Nat 4).push_back 5).tail + 0) % 4) default)) :=
  at_checked_access Nat 4 ((mk_empty Nat 4).push_back 5) 0 (by decide)

/-- C4: `capped_mod` agrees with `% SIZE` on `[0, 2*SIZE)`; starting from a
well-formed state every `capped_mod` argument produced by the container
operations (`push_back`, `pop_back`, `pop_front`, indexing on its documented
domain `[0, SIZE)`, `back`, iterator advance) lies in `[0, 2*SIZE)`; and every
mutating operation re-establishes well-formedness, so the out-of-domain branch
is never reachable. -/
theorem capped_mod_callsite_safety (T : Type) [Inhabited T] (SIZE : Nat)
    (s : circular_buffer T SIZE) (item : T) (x pos : Nat) (hw : s.WF) :
    (x < 2 * SIZE → capped_mod SIZE x = x % SIZE) ∧
    s.head + 1 < 2 * SIZE ∧
    s.tail + 1 < 2 * SIZE ∧
    s.head + SIZE - 1 < 2 * SIZE ∧
    (pos < SIZE → s.tail + pos < 2 * SIZE) ∧
    (pos < SIZE → pos + 1 < 2 * SIZE) ∧
    (s.push_back item).WF ∧ ((s.push_back_move item).1).WF ∧
    s.pop_back.WF ∧ s.pop_front.WF := by
  obtain ⟨h1, h2, h3⟩ := hw
  refine ⟨fun hx => capped_mod_eq_mod SIZE x hx, by omega, by omega, by omega,
    fun hp => by omega, fun hp => by omega,
    WF_push_back s item ⟨h1, h2, h3⟩, ?_,
    WF_pop_back s ⟨h1, h2, h3⟩, WF_pop_front s ⟨h1, h2, h3⟩⟩
  rw [push_back_move_fst]
  exact WF_push_back s item ⟨h1, h2, h3⟩

/-- C4 witness: call-site safety at a concrete well-formed state. -/
theorem capped_mod_callsite_safety_witness :
    ((5 : Nat) < 2 * 3 → capped_mod 3 5 = 5 % 3) ∧
    ((mk_empty Nat 3).push_back 7).head + 1 < 2 * 3 ∧
    ((mk_empty Nat 3).push_back 7).tail + 1 < 2 * 3 ∧
    ((mk_empty Nat 3).push_back 7).head + 3 - 1 < 2 * 3 ∧
    ((2 : Nat) < 3 → ((mk_empty Nat 3).push_back 7).tail + 2 < 2 * 3) ∧
    ((2 : Nat) < 3 → (2 : Nat) + 1 < 2 * 3) ∧
    (((mk_empty Nat 3).push_back 7).push_back 8).WF ∧
    ((((mk_empty Nat 3).push_back 7).push_back_move 8).1).WF ∧
    (((mk_empty Nat 3).push_back 7).pop_back).WF ∧
    (((mk_empty Nat 3).push_back 7).pop_front).WF :=
  capped_mod_callsite_safety Nat 3 ((mk_empty Nat 3).push_back 7) 8 5 2 (by decide)

/-- C5: iterating from `begin()` to `end()` (dereference, then advance by
`capped_mod(pos + 1)`, stopping at the `head` sentinel) yields exactly
`length()` elements, in oldest-to-newest logical order (`operator[](0)` up to
`operator[](length()-1)`), for every well-formed state including wrapped ones. -/
theorem iteration_order (T : Type) [Inhabited T] (SIZE : Nat)
    (s : circular_buffer T SIZE) (hw : s.WF) :
    s.iterList = (List.range s.len).map (fun i => s.opIndex i) ∧
    s.iterList.length = s.len := by
  have h0 : capped_mod SIZE (s.tail + 0) = s.beginPos := by
    obtain ⟨h1, h2, _⟩ := hw
    unfold capped_mod beginPos
    split_ifs <;> omega
  have hmain := iterGo_spec s hw s.len 0 SIZE (by omega) (le_of_lt (len_lt s hw))
  rw [h0] at hmain
  unfold iterList
  rw [hmain, List.range_eq_range']
  exact ⟨rfl, by simp⟩

/-- C5 witness: a wrapped buffer (`SIZE = 4`, five pushes, so `tail > head`
in raw terms) still iterates in logical order. -/
theorem iteration_order_witness :
    ((mk_empty Nat 4).pushSeq (fun n => n) 5).iterList =
      (List.range ((mk_empty Nat 4).pushSeq (fun n => n) 5).len).map
        (fun i => ((mk_empty Nat 4).pushSeq (fun n => n) 5).opIndex i) ∧
    ((mk_empty Nat 4).pushSeq (fun n => n) 5).iterList.length =
      ((mk_empty Nat 4).pushSeq (fun n => n) 5).len :=
  iteration_order Nat 4 ((mk_empty Nat 4).pushSeq (fun n => n) 5) (by decide)

/-- C6: on a non-empty well-formed buffer, `pop_front` and `pop_back` each
decrease `length()` by exactly 1; `pop_front` removes logical position 0
(element `i` of the result is old element `i+1`), `pop_back` removes position
`length()-1` (element `i` is unchanged); afterwards `front()`/`back()` denote
the new oldest/newest element. -/
theorem pop_postconditions (T : Type) [Inhabited T] (SIZE : Nat)
    (s : circular_buffer T SIZE) (i : Nat) (hw : s.WF) (hne : s.empty = false) :
    s.pop_front.len = s.len - 1 ∧
    s.pop_back.len = s.len - 1 ∧
    (i < s.len - 1 → s.pop_front.opIndex i = s.opIndex (i + 1)) ∧
    (i < s.len - 1 → s.pop_back.opIndex i = s.opIndex i) ∧
    (2 ≤ s.len → s.pop_front.front = s.opIndex 1 ∧ s.pop_front.back = s.back ∧
      s.pop_back.front = s.front ∧ s.pop_back.back = s.opIndex (s.len - 2)) := by
  have hne' : s.head ≠ s.tail := by simpa [empty] using hne
  exact ⟨len_pop_front s hw hne', len_pop_back s hw hne',
    fun hi => opIndex_pop_front s hw (by have := len_lt s hw; omega),
    fun _ => opIndex_pop_back s i,
    fun h2 => ⟨front_pop_front s, back_pop_front s, front_pop_back s,
      back_pop_back s hw h2⟩⟩

/-- C6 witness: pops on the wrapped three-element buffer obtained from four
pushes into `SIZE = 4`, checked at position 1. -/
theorem pop_postconditions_witness :
    ((mk_empty Nat 4).pushSeq (fun n => n) 4).pop_front.len =
      ((mk_empty Nat 4).pushSeq (fun n => n) 4).len - 1 ∧
    ((mk_empty Nat 4).pushSeq (fun n => n) 4).pop_back.len =
      ((mk_empty Nat 4).pushSeq (fun n => n) 4).len - 1 ∧
    ((1 : Nat) < ((mk_empty Nat 4).pushSeq (fun n => n) 4).len - 1 →
      ((mk_empty Nat 4).pushSeq (fun n => n) 4).pop_front.opIndex 1 =
        ((mk_empty Nat 4).pushSeq (fun n => n) 4).opIndex 2) ∧
    ((1 : Nat) < ((mk_empty Nat 4).pushSeq (fun n => n) 4).len - 1 →
      ((mk_empty Nat 4).pushSeq (fun n => n) 4).pop_back.opIndex 1 =
        ((mk_empty Nat 4).pushSeq (fun n => n) 4).opIndex 1) ∧
    (2 ≤ ((mk_empty Nat 4).pushSeq (fun n => n) 4).len →
      ((mk_empty Nat 4).pushSeq (fun n => n) 4).pop_front.front =
        ((mk_empty Nat 4).pushSeq (fun n => n) 4).opIndex 1 ∧
      ((mk_empty Nat 4).pushSeq (fun n => n) 4).pop_front.back =
        ((mk_empty Nat 4).pushSeq (fun n => n) 4).back ∧
      ((mk_empty Nat 4).pushSeq (fun n => n) 4).pop_back.front =
        ((mk_empty Nat 4).pushSeq (fun n => n) 4).front ∧
      ((mk_empty Nat 4).pushSeq (fun n => n) 4).pop_back.back =
        ((mk_empty Nat 4).pushSeq (fun n => n) 4).opIndex
          (((mk_empty Nat 4).pushSeq (fun n => n) 4).len - 2)) :=
  pop_postconditions Nat 4 ((mk_empty Nat 4).pushSeq (fun n => n) 4) 1
    (by decide) (by decide)

/-- C8: for `SIZE = 1` (capacity 0), every state reachable through the public
operations satisfies `isFull() == true` and `isEmpty() == true`
simultaneously, and `at(pos)` fails with the out-of-range error for every
`pos`. -/
theorem degenerate_size_one (T : Type) [Inhabited T] (s : circular_buffer T 1)
    (h : Reachable T 1 s) (pos : Nat) :
    s.full = true ∧ s.empty = true ∧
    s.at' pos = Except.error "Out of range access to circular_buffer" := by
  obtain ⟨e1, e2⟩ := reachable_size_one s h
  have hlen : s.len = 0 := by
    unfold len
    rw [e1, e2]
    simp
  refine ⟨?_, ?_, ?_⟩
  · simp [full, capped_mod, e1, e2]
  · simp [empty, e1, e2]
  · unfold at'
    rw [if_pos (by omega)]

/-- C8 witness: the degenerate case at the freshly constructed state, `pos = 7`. -/
theorem degenerate_size_one_witness :
    (mk_empty Nat 1).full = true ∧ (mk_empty Nat 1).empty = true ∧
    (mk_empty Nat 1).at' 7 = Except.error "Out of range access to circular_buffer" :=
  degenerate_size_one Nat (mk_empty Nat 1) Reachable.base 7

/-- C9: on a well-formed non-full buffer, `push_back` leaves `tail` unchanged
and preserves the element at every outstanding logical position `p` below the
old `length()`. -/
theorem push_frame_property (T : Type) [Inhabited T] (SIZE : Nat)
    (s : circular_buffer T SIZE) (x : T) (p : Nat) (hw : s.WF)
    (hnf : s.full = false) :
    (s.push_back x).tail = s.tail ∧
    (p < s.len → (s.push_back x).opIndex p = s.opIndex p) := by
  obtain ⟨h1, h2, h3⟩ := hw
  have hcond : capped_mod SIZE (s.head + 1) ≠ s.tail := by simpa [full] using hnf
  constructor
  · simp only [push_back]
    rw [if_neg hcond]
  · intro hp
    simp only [push_back]
    rw [if_neg hcond]
    unfold opIndex
    dsimp only
    exact getD_set_ne _ _ _ (Ne.symm (pos_ne_head s ⟨h1, h2, h3⟩ hp))

/-- C9 witness: pushing onto a non-full one-element buffer preserves position 0. -/
theorem push_frame_property_witness :
    (((mk_empty Nat 4).push_back 3).push_back 8).tail =
      ((mk_empty Nat 4).push_back 3).tail ∧
    ((0 : Nat) < ((mk_empty Nat 4).push_back 3).len →
      (((mk_empty Nat 4).push_back 3).push_back 8).opIndex 0 =
        ((mk_empty Nat 4).push_back 3).opIndex 0) :=
  push_frame_property Nat 4 ((mk_empty Nat 4).push_back 3) 8 0 (by decide) (by decide)

/-- C10: the copy overload `push_back(const T&)` and the move overload
`push_back(T&&)` (implemented via swap) produce identical resulting `head`,
`tail` and buffer contents — they are observationally equivalent through the
public interface. -/
theorem push_copy_move_equiv (T : Type) [Inhabited T] (SIZE : Nat)
    (s : circular_buffer T SIZE) (x : T) (p : Nat) :
    (s.push_back_move x).1.head = (s.push_back x).head ∧
    (s.push_back_move x).1.tail = (s.push_back x).tail ∧
    (s.push_back_move x).1.opIndex p = (s.push_back x).opIndex p ∧
    (s.push_back_move x).1 = s.push_back x := by
  have h := push_back_move_fst s x
  exact ⟨by rw [h], by rw [h], by rw [h], h⟩

end circular_buffer
